import Mathlib

/-!
Verification development for the blog-keyword-analyzer core pipeline
(text normalization, keyword expansion, metrics enrichment, scoring and
monetization).  Python floats are modelled by exact rationals (for the
monetization arithmetic) and by real numbers (for the scoring formulas,
which use `log10`); Python `int` is modelled by `ℤ`, Python lists by
`List`, Python dicts by association lists with first-match lookup, and
Python `None` by `Option`.
-/

namespace BlogKW

/-! ### Text normalizer (`text_utils.py`) -/

/-- Characters matched by the `_CTRL_RE` regex class `[\t\r\n\v\f]`. -/
def isPyCtrl (c : Char) : Bool :=
  c = '\t' || c = '\r' || c = '\n' || c = '\x0b' || c = '\x0c'

/-- Whitespace characters matched by the regex class `\s` (ASCII range). -/
def isPyWS (c : Char) : Bool :=
  c = ' ' || isPyCtrl c

/-- Model of Python `str.strip()` on the character list of a string. -/
def pyStripChars (l : List Char) : List Char :=
  ((l.dropWhile isPyWS).reverse.dropWhile isPyWS).reverse

/-- Replace every maximal run of characters satisfying `p` by a single
space; the boolean argument records whether the previous character was
inside such a run.  Models `re.sub(p_run, " ", s)`. -/
def collapseRuns (p : Char → Bool) : List Char → Bool → List Char
  | [], _ => []
  | c :: cs, inRun =>
    if p c then
      if inRun then collapseRuns p cs true
      else ' ' :: collapseRuns p cs true
    else c :: collapseRuns p cs false

/-- Embeds `normalize_query`: strip, collapse control-character runs to a
space, then collapse whitespace runs to a single space. -/
def normalize_query (s : String) : String :=
  ⟨collapseRuns isPyWS (collapseRuns isPyCtrl (pyStripChars s.data) false) false⟩

/-- Model of Python `str.split(" ")`: split at every single space,
keeping empty pieces. -/
def pySplitSpace : List Char → List (List Char)
  | [] => [[]]
  | c :: cs =>
    if c = ' ' then [] :: pySplitSpace cs
    else
      match pySplitSpace cs with
      | [] => [[c]]
      | t :: ts => (c :: t) :: ts

/-- Embeds `tokenize`: normalize, split on single spaces, drop empties. -/
def tokenize (q : String) : List String :=
  ((pySplitSpace (normalize_query q).data).filter (fun t => t ≠ [])).map
    (fun t => (⟨t⟩ : String))

/-- One step of the `unique_ordered` loop: append the item unless it has
been seen already (the Python `seen` set always holds exactly the
elements of `out`). -/
def uoStep (out : List String) (it : String) : List String :=
  if it ∈ out then out else out ++ [it]

/-- Embeds `unique_ordered`: first-seen-order deduplication. -/
def unique_ordered (items : List String) : List String :=
  items.foldl uoStep []

/-! ### Expansion engine (`expansion.py`) -/

def KOREAN_LONGTAIL_SUFFIXES : List String :=
  ["방법", "후기", "리뷰", "비교", "추천", "가격", "주의사항", "장점", "단점", "가성비"]

/-- Embeds `append_suffixes`; a `none` suffix list selects the default
vocabulary, matching the Python `None` default. -/
def append_suffixes (seed : String) (suffixes : Option (List String)) : List String :=
  unique_ordered
    (((suffixes.getD KOREAN_LONGTAIL_SUFFIXES)).map
      (fun s => normalize_query (seed ++ " " ++ s)))

/-- Embeds `expand_with_suffixes`: expand every seed, concatenate,
deduplicate. -/
def expand_with_suffixes (seeds : List String) (suffixes : Option (List String)) : List String :=
  unique_ordered (seeds.foldl (fun out s => out ++ append_suffixes s suffixes) [])

def PROFILE_SUFFIXES : List (String × List String) :=
  [("travel", ["여행", "일정", "주차", "렌터카", "야경", "숙소", "카페", "맛집", "예산"]),
   ("food", ["맛집", "카페", "브런치", "디저트", "메뉴", "가격", "예약", "웨이팅", "주차"])]

/-- Model of Python `str.lower()` (character-wise lowering). -/
def pyLower (s : String) : String :=
  ⟨s.data.map Char.toLower⟩

/-- Embeds `expand_with_profile`: case-insensitive profile lookup with an
empty suffix list for unknown profiles. -/
def expand_with_profile (seeds : List String) (profile : String) : List String :=
  expand_with_suffixes seeds (some (((PROFILE_SUFFIXES).lookup (pyLower profile)).getD []))

/-! ### Metrics enricher (`enrichers.py`) -/

/-- Embeds the `EnrichedMetrics` dataclass; every signal field is
independently nullable. -/
structure EnrichedMetrics where
  keyword : String
  naver_blog_total : Option ℤ := none
  google_total : Option ℤ := none
  naver_monthly_pc : Option ℤ := none
  naver_monthly_mobile : Option ℤ := none
  naver_cpc : Option ℚ := none
deriving DecidableEq, Repr

/-- The enrichers mapping: each named data source is either absent or a
deterministic lookup returning the optional fields its client yields
(network effects and per-call failures already collapse to `none` inside
the Python clients). -/
structure Enrichers where
  naver_openapi : Option (String → Option ℤ) := none
  google_cse : Option (String → Option ℤ) := none
  naver_ads : Option (String → Option ℤ × Option ℤ × Option ℚ) := none

/-- Python dict assignment `d[k] = v` on an association list: an existing
key keeps its position and gets the new value, a new key is appended. -/
def dictInsert {β : Type} (k : String) (v : β) : List (String × β) → List (String × β)
  | [] => [(k, v)]
  | (k2, v2) :: rest =>
    if k2 = k then (k2, v) :: rest else (k2, v2) :: dictInsert k v rest

/-- Python slice `l[:n]` for an integer bound `n` (a negative bound
counts from the end of the list). -/
def pyTake {α : Type} (n : ℤ) (l : List α) : List α :=
  if 0 ≤ n then l.take n.toNat else l.take ((l.length : ℤ) + n).toNat

/-- The per-keyword body of the `enrich_keywords` loop: query each
configured source once and record its optional fields. -/
def enrichOne (e : Enrichers) (kw : String) : EnrichedMetrics :=
  let m0 : EnrichedMetrics := { keyword := kw }
  let m1 := match e.naver_openapi with
    | none => m0
    | some f => { m0 with naver_blog_total := f kw }
  let m2 := match e.google_cse with
    | none => m1
    | some f => { m1 with google_total := f kw }
  match e.naver_ads with
  | none => m2
  | some f =>
    { m2 with
      naver_monthly_pc := (f kw).1
      naver_monthly_mobile := (f kw).2.1
      naver_cpc := (f kw).2.2 }

/-- Embeds `enrich_keywords`: `limit = limit or len(keywords)` (so both
`None` and `0` mean "no cap"), then one dict entry per keyword of the
slice `keywords[:limit]`. -/
def enrich_keywords (keywords : List String) (enrichers : Enrichers)
    (limit : Option ℤ) : List (String × EnrichedMetrics) :=
  let lim : ℤ :=
    match limit with
    | none => keywords.length
    | some n => if n = 0 then keywords.length else n
  (pyTake lim keywords).foldl (fun out kw => dictInsert kw (enrichOne enrichers kw) out) []

/-! ### Scoring engine (`scoring.py`)

Python floats are modelled by real numbers here because the
metrics-informed formulas use `math.log10`. -/

/-- Embeds the `KeywordScore` dataclass. -/
structure KeywordScore where
  keyword : String
  demand : ℝ
  competition : ℝ
  opportunity : ℝ
  provider_hits : ℤ

/-- Round-half-to-even on the reals, the tie rule of Python `round`. -/
noncomputable def rhe (x : ℝ) : ℤ :=
  if Int.fract x = 1 / 2 then 2 * round (x / 2) else round x

/-- Model of Python `round(x, 3)`. -/
noncomputable def pyRound3 (x : ℝ) : ℝ :=
  (rhe (x * 1000) : ℝ) / 1000

/-- Embeds `estimate_demand_score`. -/
noncomputable def estimate_demand_score (q : String) (provider_hits : ℤ) : ℝ :=
  let n := (tokenize q).length
  let base : ℝ := if 2 ≤ n ∧ n ≤ 5 then 1.0 else 0.6
  min (base * (1.0 + (min provider_hits 5 : ℤ) * 0.1)) 3.0

/-- Embeds `estimate_competition_score`. -/
noncomputable def estimate_competition_score (q : String) : ℝ :=
  let n := (tokenize q).length
  if n ≤ 1 then 2.0
  else max 0.5 (1.5 - (min (n - 2) 4 : ℕ) * 0.12)

/-- The comparator of `results.sort(key=lambda x: (x.opportunity,
x.demand), reverse=True)`: `a` may precede `b` exactly when the key of
`b` is lexicographically at most the key of `a`. -/
noncomputable def scoreLe (a b : KeywordScore) : Bool :=
  decide (b.opportunity < a.opportunity ∨
    (b.opportunity = a.opportunity ∧ b.demand ≤ a.demand))

/-- Stable descending sort of score rows, as Python `list.sort` with
`reverse=True`. -/
noncomputable def pySortScores (l : List KeywordScore) : List KeywordScore :=
  l.mergeSort scoreLe

/-- The per-keyword body of the `score_keywords` loop. -/
noncomputable def scoreOneHeuristic (kw : String) (hits : ℤ) : KeywordScore :=
  let d := estimate_demand_score kw hits
  let c := estimate_competition_score kw
  let opp := max (d * 1.4 - c) 0.0
  ⟨kw, pyRound3 d, pyRound3 c, pyRound3 opp, hits⟩

/-- Python `hit_counts.get(kw, 1)` after `hit_counts = hit_counts or {}`. -/
def hitsFor (hit_counts : Option (List (String × ℤ))) (kw : String) : ℤ :=
  (((hit_counts.getD []).lookup kw)).getD 1

/-- Embeds `score_keywords` (heuristic mode). -/
noncomputable def score_keywords (keywords : List String)
    (hit_counts : Option (List (String × ℤ))) : List KeywordScore :=
  pySortScores (keywords.map (fun kw => scoreOneHeuristic kw (hitsFor hit_counts kw)))

/-- Embeds `_comp_from_results`. -/
noncomputable def comp_from_results (total : ℤ) : ℝ :=
  if total ≤ 0 then 0.8
  else max 0.6 (min 2.3 (0.7 + Real.logb 10 ((total : ℝ) + 1) * 0.25))

/-- The spec's per-source competition formula, written from the spec's
words `comp = clamp(0.7 + log10(total+1)*0.25, 0.6, 2.3)`, to be
compared with the source's `_comp_from_results`. -/
noncomputable def specCompClamp (total : ℤ) : ℝ :=
  max 0.6 (min (0.7 + Real.logb 10 ((total : ℝ) + 1) * 0.25) 2.3)

/-- Monthly volume read off a looked-up metrics record in
`score_keywords_with_metrics`: `getattr(m, f, 0) or 0` yields `0` both
for a missing record and for a `None` field. -/
def monthlyOf (m : Option EnrichedMetrics) : ℤ :=
  match m with
  | none => 0
  | some m => (m.naver_monthly_pc.getD 0) + (m.naver_monthly_mobile.getD 0)

/-- The per-source competition estimates collected by
`score_keywords_with_metrics` (Naver first, then Google; a `None` field
contributes nothing). -/
noncomputable def compsOf (m : Option EnrichedMetrics) : List ℝ :=
  match m with
  | none => []
  | some m =>
    (match m.naver_blog_total with
      | some t => [comp_from_results t]
      | none => []) ++
    (match m.google_total with
      | some t => [comp_from_results t]
      | none => [])

/-- The per-keyword body of the `score_keywords_with_metrics` loop.  The
`try/except` of the source cannot fire on well-typed `EnrichedMetrics`
records, so no exceptional branch is modelled. -/
noncomputable def scoreOneWithMetrics (kw : String) (hits : ℤ)
    (m : Option EnrichedMetrics) : KeywordScore :=
  let d0 := estimate_demand_score kw hits
  let c0 := estimate_competition_score kw
  let monthly := monthlyOf m
  let d : ℝ :=
    if 0 < monthly then
      min 3.0 (0.6 + Real.logb 10 (1 + (monthly : ℝ)) * 0.6 + (min hits 5 : ℤ) * 0.05)
    else d0
  let comps := compsOf m
  let c : ℝ :=
    if comps.isEmpty then c0
    else max 0.5 (min (comps.sum / comps.length) 2.5)
  let opp := max (d * 1.4 - c) 0.0
  ⟨kw, pyRound3 d, pyRound3 c, pyRound3 opp, hits⟩

/-- Embeds `score_keywords_with_metrics`. -/
noncomputable def score_keywords_with_metrics (keywords : List String)
    (hit_counts : Option (List (String × ℤ)))
    (metrics : List (String × EnrichedMetrics)) : List KeywordScore :=
  pySortScores (keywords.map
    (fun kw => scoreOneWithMetrics kw (hitsFor hit_counts kw) (metrics.lookup kw)))

/-- Embeds `score_keywords_by_platform`: `if metrics:` selects
metrics-informed scoring exactly when the map is present and
non-empty. -/
noncomputable def score_keywords_by_platform (keywords : List String)
    (hit_counts : Option (List (String × ℤ)))
    (metrics : Option (List (String × EnrichedMetrics)))
    (platform : String := "naver") : List KeywordScore :=
  match metrics with
  | some l =>
    if l.isEmpty then score_keywords keywords hit_counts
    else score_keywords_with_metrics keywords hit_counts l
  | none => score_keywords keywords hit_counts

/-! ### Monetization estimator (`monetization.py`)

All arithmetic here is rational, so Python floats are modelled by `ℚ`;
the default parameter values are exactly representable and the derived
quantities at the inputs of interest round identically in binary floating
point and in `ℚ`. -/

/-- Embeds the `MonetizationParams` dataclass with its defaults. -/
structure MonetizationParams where
  capture_pct : ℚ := 15.0
  pv_per_visit : ℚ := 1.3
  ecpm : ℚ := 2500.0
  aff_cvr_pct : ℚ := 1.5
  aff_commission : ℚ := 1500.0
deriving DecidableEq, Repr

/-- Token list of `INTENT_RULES["transactional"]`. -/
def transactionalTokens : List String :=
  ["구매", "가격", "할인", "최저가", "쿠폰", "예약", "신청", "견적", "비용", "수강"]

/-- Token list of `INTENT_RULES["commercial"]`. -/
def commercialTokens : List String :=
  ["추천", "비교", "후기", "리뷰", "장단점", "베스트", "top", "vs"]

/-- Token list of `INTENT_RULES["informational"]`. -/
def informationalTokens : List String :=
  ["방법", "사용법", "가이드", "주의", "꿀팁", "하는 법", "어떻게", "왜", "무엇"]

/-- Python substring test `sub in s`. -/
def pyIn (sub s : String) : Bool :=
  decide (sub.data <:+: s.data)

/-- One intent token matches the keyword if it occurs verbatim or
case-insensitively (the two `if` tests of the inner loop). -/
def intentTokenHits (kw : String) (t : String) : Bool :=
  pyIn t kw || pyIn (pyLower t) (pyLower kw)

/-- Embeds `classify_intent`: the three ordered lists are scanned in
priority order and the first hit wins, defaulting to informational. -/
def classify_intent (keyword : String) : String :=
  if transactionalTokens.any (intentTokenHits keyword) then "transactional"
  else if commercialTokens.any (intentTokenHits keyword) then "commercial"
  else if informationalTokens.any (intentTokenHits keyword) then "informational"
  else "informational"

/-- Embeds `_monthly_from_metrics`: `max(pc + mobile, 0)` with `None`
fields read as `0`. -/
def monthly_from_metrics (m : EnrichedMetrics) : ℤ :=
  max ((m.naver_monthly_pc.getD 0) + (m.naver_monthly_mobile.getD 0)) 0

/-- Python `int(x)` on a rational: truncation toward zero. -/
def pyInt (x : ℚ) : ℤ :=
  if 0 ≤ x then ⌊x⌋ else ⌈x⌉

/-- Round-half-to-even on the rationals, the tie rule of Python `round`. -/
def rheQ (x : ℚ) : ℤ :=
  if Int.fract x = 1 / 2 then 2 * round (x / 2) else round x

/-- Model of Python `round(x, 2)` on rationals. -/
def qRound2 (x : ℚ) : ℚ :=
  (rheQ (x * 100) : ℚ) / 100

/-- Model of Python `round(x, 3)` on rationals. -/
def qRound3 (x : ℚ) : ℚ :=
  (rheQ (x * 1000) : ℚ) / 1000

/-- Embeds the row dict built by `monetize_keywords`. -/
structure MonetizationRow where
  keyword : String
  intent : String
  monthly_search : ℤ
  capture_pct : ℚ
  pv_per_visit : ℚ
  eCPM : ℚ
  aff_cvr_pct : ℚ
  aff_commission : ℚ
  est_visits : ℤ
  est_pageviews : ℤ
  est_display_rev : ℤ
  est_aff_rev : ℤ
  est_total_rev : ℤ
  naver_cpc : Option ℚ
deriving DecidableEq, Repr

/-- Python `str.strip()` on a string. -/
def pyStrip (s : String) : String :=
  ⟨pyStripChars s.data⟩

/-- The exclusion token set `{t.strip() for t in exclude if t and t.strip()}`
(as a list; only membership matters downstream). -/
def exSetOf (exclude_tokens : Option (List String)) : List String :=
  ((exclude_tokens.getD []).map pyStrip).filter (fun t => t ≠ "")

/-- The per-keyword body of the `monetize_keywords` loop: `none` when
the keyword is skipped (no metrics record, volume below threshold, or an
exclusion token occurs in the keyword). -/
def rowOf (params : MonetizationParams) (ex_set : List String) (min_monthly : ℤ)
    (metrics : List (String × EnrichedMetrics)) (kw : String) : Option MonetizationRow :=
  match metrics.lookup kw with
  | none => none
  | some m =>
    let monthly := monthly_from_metrics m
    if monthly < min_monthly then none
    else if ex_set.any (fun tok => pyIn tok kw) then none
    else
      let capture : ℚ := max 0.0 (min 100.0 params.capture_pct) / 100.0
      let visits : ℚ := (monthly : ℚ) * capture
      let pv : ℚ := visits * params.pv_per_visit
      let display_rev : ℚ := (pv / 1000.0) * params.ecpm
      let aff_orders : ℚ := visits * (max 0.0 params.aff_cvr_pct / 100.0)
      let aff_rev : ℚ := aff_orders * params.aff_commission
      let total : ℚ := display_rev + aff_rev
      some
        { keyword := kw
          intent := classify_intent kw
          monthly_search := monthly
          capture_pct := qRound2 params.capture_pct
          pv_per_visit := qRound3 params.pv_per_visit
          eCPM := qRound2 params.ecpm
          aff_cvr_pct := qRound3 params.aff_cvr_pct
          aff_commission := qRound2 params.aff_commission
          est_visits := pyInt visits
          est_pageviews := pyInt pv
          est_display_rev := pyInt display_rev
          est_aff_rev := pyInt aff_rev
          est_total_rev := pyInt total
          naver_cpc := m.naver_cpc }

/-- The comparator of `rows.sort(key=..., reverse=True)` on
`(est_total_rev, monthly_search)`. -/
def rowLe (a b : MonetizationRow) : Bool :=
  decide (b.est_total_rev < a.est_total_rev ∨
    (b.est_total_rev = a.est_total_rev ∧ b.monthly_search ≤ a.monthly_search))

/-- Embeds `monetize_keywords`. -/
def monetize_keywords (keywords : List String)
    (metrics : List (String × EnrichedMetrics))
    (params : Option MonetizationParams) (min_monthly : ℤ)
    (exclude_tokens : Option (List String)) : List MonetizationRow :=
  let p := params.getD {}
  let ex_set := exSetOf exclude_tokens
  (keywords.filterMap (rowOf p ex_set min_monthly metrics)).mergeSort rowLe

/-! ### Helper lemmas about `unique_ordered` -/

lemma mem_uoStep {acc : List String} {x a : String} :
    a ∈ uoStep acc x ↔ a ∈ acc ∨ a = x := by
  unfold uoStep
  by_cases hx : x ∈ acc
  · rw [if_pos hx]
    constructor
    · exact fun h => Or.inl h
    · rintro (h | h)
      · exact h
      · exact h ▸ hx
  · rw [if_neg hx]
    simp

lemma mem_foldl_uoStep (xs : List String) :
    ∀ (acc : List String) (a : String),
      a ∈ xs.foldl uoStep acc ↔ a ∈ acc ∨ a ∈ xs := by
  induction xs with
  | nil => simp
  | cons x xs ih =>
    intro acc a
    rw [List.foldl_cons, ih]
    rw [mem_uoStep]
    simp only [List.mem_cons]
    tauto

lemma nodup_foldl_uoStep (xs : List String) :
    ∀ acc : List String, acc.Nodup → (xs.foldl uoStep acc).Nodup := by
  induction xs with
  | nil => exact fun _ h => h
  | cons x xs ih =>
    intro acc hacc
    rw [List.foldl_cons]
    refine ih _ ?_
    unfold uoStep
    by_cases hx : x ∈ acc
    · rwa [if_pos hx]
    · rw [if_neg hx]
      simp [List.nodup_append, hacc, hx]

lemma foldl_uoStep_of_fresh (xs : List String) :
    ∀ acc : List String, xs.Nodup → (∀ x ∈ xs, x ∉ acc) →
      xs.foldl uoStep acc = acc ++ xs := by
  induction xs with
  | nil => simp
  | cons x xs ih =>
    intro acc hnd hfresh
    rw [List.foldl_cons]
    have hx : x ∉ acc := hfresh x (by simp)
    rw [show uoStep acc x = acc ++ [x] by unfold uoStep; rw [if_neg hx]]
    rw [ih (acc ++ [x]) hnd.of_cons ?_]
    · simp
    · intro y hy
      simp only [List.mem_append, List.mem_singleton]
      rintro (h | h)
      · exact hfresh y (by simp [hy]) h
      · exact (List.nodup_cons.mp hnd).1 (h ▸ hy)

lemma unique_ordered_of_nodup {xs : List String} (h : xs.Nodup) :
    unique_ordered xs = xs := by
  unfold unique_ordered
  rw [foldl_uoStep_of_fresh xs [] h (by simp)]
  simp

lemma mem_unique_ordered {xs : List String} {a : String} :
    a ∈ unique_ordered xs ↔ a ∈ xs := by
  unfold unique_ordered
  rw [mem_foldl_uoStep]
  simp

lemma nodup_unique_ordered (xs : List String) : (unique_ordered xs).Nodup :=
  nodup_foldl_uoStep xs [] List.nodup_nil

lemma indexOf_append_lt_of_mem {pre rest : List String} {a : String}
    (h : a ∈ pre) : (pre ++ rest).indexOf a < pre.length := by
  induction pre with
  | nil => simp at h
  | cons c pre ih =>
    rcases List.mem_cons.mp h with h | h
    · subst h
      simp
    · by_cases hc : a = c
      · subst hc
        simp
      · rw [List.cons_append, List.indexOf_cons]
        simp only [List.length_cons]
        have : (c == a) = false := by
          simp [beq_iff_eq]
          exact fun hh => hc hh.symm
        rw [this]
        simpa using ih h

lemma indexOf_append_of_not_mem {pre rest : List String} {b : String}
    (h : b ∉ pre) : (pre ++ rest).indexOf b = pre.length + rest.indexOf b := by
  induction pre with
  | nil => simp
  | cons c pre ih =>
    have hcb : ¬c = b := fun hh => h (by simp [hh])
    rw [List.cons_append, List.indexOf_cons]
    have : (c == b) = false := by simp [beq_iff_eq, hcb]
    rw [this]
    have hb : b ∉ pre := fun hh => h (by simp [hh])
    simp [ih hb, Nat.add_assoc, Nat.add_comm 1, Nat.add_left_comm]

lemma pairwise_foldl_uoStep (ys : List String) :
    ∀ (xs pre acc : List String), ys = pre ++ xs →
      (∀ a, a ∈ acc ↔ a ∈ pre) →
      acc.Pairwise (fun a b => ys.indexOf a < ys.indexOf b) →
      (xs.foldl uoStep acc).Pairwise (fun a b => ys.indexOf a < ys.indexOf b) := by
  intro xs
  induction xs with
  | nil => exact fun pre acc _ _ h => h
  | cons x xs ih =>
    intro pre acc hys hmem hpw
    rw [List.foldl_cons]
    refine ih (pre ++ [x]) (uoStep acc x) (by simp [hys]) ?_ ?_
    · intro a
      rw [mem_uoStep, hmem a]
      simp
    · unfold uoStep
      by_cases hx : x ∈ acc
      · rwa [if_pos hx]
      · rw [if_neg hx]
        rw [List.pairwise_append]
        refine ⟨hpw, List.pairwise_singleton _ _, ?_⟩
        intro a ha b hb
        rw [List.mem_singleton] at hb
        have ha' : a ∈ pre := (hmem a).mp ha
        have hb' : b ∉ pre := fun hh => hx (hb ▸ ((hmem b).mpr hh))
        have h1 : ys.indexOf a < pre.length := by
          rw [hys]
          exact indexOf_append_lt_of_mem ha'
        have h2 : ys.indexOf b = pre.length + (x :: xs).indexOf b := by
          rw [hys]
          exact indexOf_append_of_not_mem hb'
        have : pre.length ≤ ys.indexOf b := by
          rw [h2]
          exact Nat.le_add_right _ _
        omega

lemma pairwise_unique_ordered (xs : List String) :
    (unique_ordered xs).Pairwise (fun a b => xs.indexOf a < xs.indexOf b) := by
  unfold unique_ordered
  exact pairwise_foldl_uoStep xs xs [] [] (by simp) (by simp) (by simp)

/-! ### Helper lemmas about dictionary insertion in `enrich_keywords` -/

lemma dictInsert_keys {β : Type} (k : String) (v : β) :
    ∀ d : List (String × β), (dictInsert k v d).map Prod.fst = uoStep (d.map Prod.fst) k := by
  intro d
  induction d with
  | nil => simp [dictInsert, uoStep]
  | cons p rest ih =>
    obtain ⟨k2, v2⟩ := p
    unfold dictInsert
    by_cases hk : k2 = k
    · rw [if_pos hk]
      unfold uoStep
      rw [if_pos (by simp [hk])]
      simp
    · rw [if_neg hk]
      simp only [List.map_cons, ih]
      unfold uoStep
      by_cases hmem : k ∈ rest.map Prod.fst
      · rw [if_pos hmem, if_pos (by simp [hmem])]
      · rw [if_neg hmem, if_neg (by simp [hmem, Ne.symm hk])]
        simp

lemma foldl_dictInsert_keys {β : Type} (f : String → β) (l : List String) :
    ∀ d : List (String × β),
      (l.foldl (fun out kw => dictInsert kw (f kw) out) d).map Prod.fst =
        l.foldl uoStep (d.map Prod.fst) := by
  induction l with
  | nil => intro d; simp
  | cons kw l ih =>
    intro d
    rw [List.foldl_cons, List.foldl_cons, ih, dictInsert_keys]

lemma enrich_keywords_keys (ks : List String) (e : Enrichers) (limit : Option ℤ) :
    (enrich_keywords ks e limit).map Prod.fst =
      unique_ordered (pyTake
        (match limit with
          | none => (ks.length : ℤ)
          | some n => if n = 0 then (ks.length : ℤ) else n) ks) := by
  unfold enrich_keywords unique_ordered
  rw [foldl_dictInsert_keys]
  simp

/-! ### Helper lemmas about rounding and the scoring loops -/

lemma rhe_intCast (n : ℤ) : rhe (n : ℝ) = n := by
  simp [rhe, Int.fract_intCast]

lemma pyRound3_idem (x : ℝ) : pyRound3 (pyRound3 x) = pyRound3 x := by
  unfold pyRound3
  rw [div_mul_cancel₀ _ (by norm_num : (1000 : ℝ) ≠ 0), rhe_intCast]

lemma pyRound3_eq_of_cast {x : ℝ} (n : ℤ) (h : x * 1000 = (n : ℝ)) :
    pyRound3 x = x := by
  unfold pyRound3
  rw [h, rhe_intCast, ← h, mul_div_cancel_right₀ x (by norm_num : (1000 : ℝ) ≠ 0)]

lemma scoreOneHeuristic_keyword (kw : String) (hits : ℤ) :
    (scoreOneHeuristic kw hits).keyword = kw := rfl

lemma scoreOneHeuristic_provider_hits (kw : String) (hits : ℤ) :
    (scoreOneHeuristic kw hits).provider_hits = hits := rfl

lemma scoreOneHeuristic_demand (kw : String) (hits : ℤ) :
    (scoreOneHeuristic kw hits).demand = pyRound3 (estimate_demand_score kw hits) := rfl

lemma scoreOneWithMetrics_keyword (kw : String) (hits : ℤ) (m : Option EnrichedMetrics) :
    (scoreOneWithMetrics kw hits m).keyword = kw := rfl

lemma scoreOneWithMetrics_provider_hits (kw : String) (hits : ℤ) (m : Option EnrichedMetrics) :
    (scoreOneWithMetrics kw hits m).provider_hits = hits := rfl

lemma scoreOneWithMetrics_competition (kw : String) (hits : ℤ) (m : Option EnrichedMetrics) :
    (scoreOneWithMetrics kw hits m).competition =
      pyRound3 (if (compsOf m).isEmpty then estimate_competition_score kw
        else max 0.5 (min ((compsOf m).sum / ((compsOf m).length : ℝ)) 2.5)) := rfl

lemma mem_score_keywords {ks : List String} {hc : Option (List (String × ℤ))}
    {s : KeywordScore} :
    s ∈ score_keywords ks hc ↔ ∃ kw ∈ ks, s = scoreOneHeuristic kw (hitsFor hc kw) := by
  unfold score_keywords pySortScores
  rw [List.mem_mergeSort, List.mem_map]
  constructor
  · rintro ⟨kw, hkw, h⟩
    exact ⟨kw, hkw, h.symm⟩
  · rintro ⟨kw, hkw, h⟩
    exact ⟨kw, hkw, h.symm⟩

lemma mem_score_keywords_with_metrics {ks : List String}
    {hc : Option (List (String × ℤ))} {ms : List (String × EnrichedMetrics)}
    {s : KeywordScore} :
    s ∈ score_keywords_with_metrics ks hc ms ↔
      ∃ kw ∈ ks, s = scoreOneWithMetrics kw (hitsFor hc kw) (ms.lookup kw) := by
  unfold score_keywords_with_metrics pySortScores
  rw [List.mem_mergeSort, List.mem_map]
  constructor
  · rintro ⟨kw, hkw, h⟩
    exact ⟨kw, hkw, h.symm⟩
  · rintro ⟨kw, hkw, h⟩
    exact ⟨kw, hkw, h.symm⟩

lemma score_keywords_keyword_perm (ks : List String) (hc : Option (List (String × ℤ))) :
    ((score_keywords ks hc).map KeywordScore.keyword).Perm ks := by
  unfold score_keywords pySortScores
  refine ((List.mergeSort_perm _ scoreLe).map KeywordScore.keyword).trans ?_
  rw [List.map_map]
  have h : (KeywordScore.keyword ∘ fun kw => scoreOneHeuristic kw (hitsFor hc kw)) = id := by
    funext kw
    rfl
  rw [h, List.map_id]

lemma score_keywords_with_metrics_keyword_perm (ks : List String)
    (hc : Option (List (String × ℤ))) (ms : List (String × EnrichedMetrics)) :
    ((score_keywords_with_metrics ks hc ms).map KeywordScore.keyword).Perm ks := by
  unfold score_keywords_with_metrics pySortScores
  refine ((List.mergeSort_perm _ scoreLe).map KeywordScore.keyword).trans ?_
  rw [List.map_map]
  have h : (KeywordScore.keyword ∘ fun kw =>
      scoreOneWithMetrics kw (hitsFor hc kw) (ms.lookup kw)) = id := by
    funext kw
    rfl
  rw [h, List.map_id]

lemma estimate_demand_score_absent {kw : String}
    (h2 : 2 ≤ (tokenize kw).length) (h5 : (tokenize kw).length ≤ 5) :
    estimate_demand_score kw 1 = 1.1 := by
  unfold estimate_demand_score
  dsimp only
  rw [if_pos ⟨h2, h5⟩]
  have h : ((min (1 : ℤ) 5 : ℤ) : ℝ) = 1 := by norm_num
  rw [h]
  rw [min_eq_left (by norm_num)]
  norm_num

lemma rheQ_intCast (n : ℤ) : rheQ (n : ℚ) = n := by
  simp [rheQ, Int.fract_intCast]

lemma qRound2_eq_of_cast {x : ℚ} (n : ℤ) (h : x * 100 = (n : ℚ)) : qRound2 x = x := by
  unfold qRound2
  rw [h, rheQ_intCast, ← h, mul_div_cancel_right₀ x (by norm_num : (100 : ℚ) ≠ 0)]

lemma qRound3_eq_of_cast {x : ℚ} (n : ℤ) (h : x * 1000 = (n : ℚ)) : qRound3 x = x := by
  unfold qRound3
  rw [h, rheQ_intCast, ← h, mul_div_cancel_right₀ x (by norm_num : (1000 : ℚ) ≠ 0)]

/-- Full evaluation of a single monetization row at the spec's reference
inputs: monthly volume 1000 and the default parameters. -/
lemma monetize_single_row_eval :
    monetize_keywords ["k"] [("k", { keyword := "k", naver_monthly_pc := some 1000 })]
      none 0 none =
      [{ keyword := "k", intent := "informational", monthly_search := 1000,
         capture_pct := 15, pv_per_visit := 13/10, eCPM := 2500,
         aff_cvr_pct := 3/2, aff_commission := 1500,
         est_visits := 150, est_pageviews := 195, est_display_rev := 487,
         est_aff_rev := 3375, est_total_rev := 3862, naver_cpc := none }] := by
  have hm : monthly_from_metrics { keyword := "k", naver_monthly_pc := some 1000 } = 1000 := by
    decide
  have hrow : rowOf ({} : MonetizationParams) (exSetOf none) 0
      [("k", { keyword := "k", naver_monthly_pc := some 1000 })] "k" =
      some { keyword := "k", intent := "informational", monthly_search := 1000,
             capture_pct := 15, pv_per_visit := 13/10, eCPM := 2500,
             aff_cvr_pct := 3/2, aff_commission := 1500,
             est_visits := 150, est_pageviews := 195, est_display_rev := 487,
             est_aff_rev := 3375, est_total_rev := 3862, naver_cpc := none } := by
    unfold rowOf
    rw [show List.lookup "k" [("k",
      ({ keyword := "k", naver_monthly_pc := some 1000 } : EnrichedMetrics))] =
      some { keyword := "k", naver_monthly_pc := some 1000 } from rfl]
    dsimp only
    rw [if_neg (by rw [hm]; norm_num), if_neg (by decide)]
    refine congrArg some ?_
    simp only [MonetizationRow.mk.injEq, hm]
    refine ⟨by trivial, by decide, by trivial, ?_, ?_, ?_, ?_, ?_, ?_, ?_, ?_, ?_, ?_, by trivial⟩
    · rw [qRound2_eq_of_cast 1500 (by norm_num)]
      norm_num
    · rw [qRound3_eq_of_cast 1300 (by norm_num)]
      norm_num
    · rw [qRound2_eq_of_cast 250000 (by norm_num)]
      norm_num
    · rw [qRound3_eq_of_cast 1500 (by norm_num)]
      norm_num
    · rw [qRound2_eq_of_cast 150000 (by norm_num)]
      norm_num
    · norm_num [pyInt, min_def, max_def]
    · norm_num [pyInt, min_def, max_def]
    · norm_num [pyInt, min_def, max_def]
    · norm_num [pyInt, min_def, max_def]
    · norm_num [pyInt, min_def, max_def]
  unfold monetize_keywords
  dsimp only
  rw [List.filterMap_cons, List.filterMap_nil]
  simp only [Option.getD_none]
  rw [hrow]
  simp

lemma rowOf_keyword {p : MonetizationParams} {ex : List String} {mm : ℤ}
    {ms : List (String × EnrichedMetrics)} {kw : String} {r : MonetizationRow}
    (h : rowOf p ex mm ms kw = some r) : r.keyword = kw := by
  unfold rowOf at h
  split at h
  · exact absurd h (by simp)
  · dsimp only at h
    split_ifs at h
    simp only [Option.some.injEq] at h
    exact (congrArg MonetizationRow.keyword h).symm

lemma filterMap_rowOf_keywords (p : MonetizationParams) (ex : List String) (mm : ℤ)
    (ms : List (String × EnrichedMetrics)) (ks : List String) :
    ((ks.filterMap (rowOf p ex mm ms)).map MonetizationRow.keyword).Sublist ks := by
  induction ks with
  | nil => simp
  | cons kw ks ih =>
    rw [List.filterMap_cons]
    cases hr : rowOf p ex mm ms kw with
    | none => exact ih.cons kw
    | some r =>
      simp only [List.map_cons]
      rw [rowOf_keyword hr]
      exact ih.cons₂ kw

lemma monetize_keywords_keyword_sublist (ks : List String)
    (ms : List (String × EnrichedMetrics)) (params : Option MonetizationParams)
    (mm : ℤ) (excl : Option (List String)) :
    ∃ l, ((monetize_keywords ks ms params mm excl).map MonetizationRow.keyword).Perm l ∧
      l.Sublist ks := by
  refine ⟨(ks.filterMap (rowOf (params.getD {}) (exSetOf excl) mm ms)).map
    MonetizationRow.keyword, ?_, filterMap_rowOf_keywords _ _ _ _ _⟩
  exact (List.mergeSort_perm _ rowLe).map MonetizationRow.keyword

/-! ### Claim theorems -/

/-- C7: `unique_ordered` is idempotent, its output has no duplicate
strings, it has exactly the elements of its input, and the elements
appear ordered by the position of their first occurrence in the input. -/
theorem c7_unique_ordered_idempotent_nodup_order (xs : List String) :
    unique_ordered (unique_ordered xs) = unique_ordered xs ∧
    (unique_ordered xs).Nodup ∧
    (∀ a, a ∈ unique_ordered xs ↔ a ∈ xs) ∧
    (unique_ordered xs).Pairwise (fun a b => xs.indexOf a < xs.indexOf b) :=
  ⟨unique_ordered_of_nodup (nodup_unique_ordered xs),
   nodup_unique_ordered xs,
   fun _ => mem_unique_ordered,
   pairwise_unique_ordered xs⟩

/-- C3: with no enrichment source configured, `enrich_keywords` does not
surface any error to the caller; it silently returns a mapping whose
single record has every metrics field `null` — the exact outcome the
spec's error-handling policy says must not happen. -/
theorem c3_enrich_no_sources_returns_all_null :
    enrich_keywords ["제주 호텔"] {} none =
      [("제주 호텔", { keyword := "제주 호텔" })] := by
  rfl

/-- C4 counterexample: a cap of `0` does not yield an empty map; because
of `limit = limit or len(keywords)` a zero cap is treated as "no cap"
and every keyword is enriched. -/
theorem c4_counterexample_cap_zero_enriches_all :
    (enrich_keywords ["a"] {} (some 0)).map Prod.fst = ["a"] ∧
    (["a"] : List String) ≠ [] := by
  constructor
  · rfl
  · simp

/-- C4 amended: for a positive cap `n` and duplicate-free input, the
output keys are exactly the first `min(n, length)` keywords (the slice
`keywords[:n]`), and every keyword beyond the cap is omitted; a cap of
`0` or `None` instead enriches every keyword. -/
theorem c4_enrich_cap_keys (ks : List String) (e : Enrichers) (n : ℤ)
    (hn : 1 ≤ n) (hnd : ks.Nodup) :
    (enrich_keywords ks e (some n)).map Prod.fst = ks.take n.toNat ∧
    ∀ kw ∈ ks.drop n.toNat, kw ∉ (enrich_keywords ks e (some n)).map Prod.fst := by
  have hkeys : (enrich_keywords ks e (some n)).map Prod.fst = ks.take n.toNat := by
    rw [enrich_keywords_keys]
    have h0 : ¬n = 0 := by omega
    simp only [h0, if_false]
    unfold pyTake
    rw [if_pos (by omega)]
    exact unique_ordered_of_nodup (hnd.sublist (List.take_sublist _ _))
  refine ⟨hkeys, ?_⟩
  intro kw hkw
  rw [hkeys]
  have hsplit := List.take_append_drop n.toNat ks
  have : (ks.take n.toNat ++ ks.drop n.toNat).Nodup := by rw [hsplit]; exact hnd
  have hdisj := (List.nodup_append.mp this).2.2
  intro hmem
  exact hdisj hmem hkw

/-- C4 witness: cap `1` on `["a", "b"]` keeps exactly `"a"` and omits
`"b"`. -/
theorem c4_enrich_cap_keys_witness :
    (enrich_keywords ["a", "b"] {} (some 1)).map Prod.fst =
      (["a", "b"] : List String).take ((1 : ℤ)).toNat ∧
    "b" ∉ (enrich_keywords ["a", "b"] {} (some 1)).map Prod.fst :=
  ⟨(c4_enrich_cap_keys ["a", "b"] {} 1 (by norm_num) (by decide)).1,
   (c4_enrich_cap_keys ["a", "b"] {} 1 (by norm_num) (by decide)).2 "b" (by decide)⟩

/-- C8: `expand_with_profile` is a total function of its two arguments,
and any profile whose case-insensitive lookup misses the static profile
table produces no candidates at all. -/
theorem c8_expand_unknown_profile_empty (seeds : List String) (profile : String)
    (h : (PROFILE_SUFFIXES).lookup (pyLower profile) = none) :
    expand_with_profile seeds profile = [] := by
  unfold expand_with_profile
  rw [h]
  show expand_with_suffixes seeds (some []) = []
  unfold expand_with_suffixes
  have hfold : ∀ out : List String,
      seeds.foldl (fun out s => out ++ append_suffixes s (some [])) out = out := by
    induction seeds with
    | nil => intro out; rfl
    | cons s ss ih =>
      intro out
      rw [List.foldl_cons]
      have : append_suffixes s (some []) = [] := rfl
      rw [this, List.append_nil, ih]
  rw [hfold]
  rfl

/-- C8 witness: the profile `"unknown"` misses the table and expands to
nothing. -/
theorem c8_expand_unknown_profile_empty_witness :
    (PROFILE_SUFFIXES).lookup (pyLower "unknown") = none ∧
    expand_with_profile ["제주"] "unknown" = [] :=
  ⟨by decide, c8_expand_unknown_profile_empty ["제주"] "unknown" (by decide)⟩

/-- C6: `score_keywords_by_platform` delegates to
`score_keywords_with_metrics` exactly when a metrics map is supplied and
non-empty, and to the heuristic `score_keywords` when the map is absent
or empty. -/
theorem c6_by_platform_mode_selection (ks : List String)
    (hc : Option (List (String × ℤ))) (platform : String) :
    (∀ l : List (String × EnrichedMetrics), l ≠ [] →
       score_keywords_by_platform ks hc (some l) platform =
         score_keywords_with_metrics ks hc l) ∧
    score_keywords_by_platform ks hc none platform = score_keywords ks hc ∧
    score_keywords_by_platform ks hc (some []) platform = score_keywords ks hc := by
  refine ⟨?_, rfl, rfl⟩
  intro l hl
  cases l with
  | nil => exact absurd rfl hl
  | cons x xs => rfl

/-- C9: every score returned by the three scoring entry points has its
demand, competition and opportunity fields equal to their own value
rounded to 3 decimal places. -/
theorem c9_score_fields_rounded_to_3 :
    (∀ ks hc, ∀ s ∈ score_keywords ks hc,
      s.demand = pyRound3 s.demand ∧ s.competition = pyRound3 s.competition ∧
      s.opportunity = pyRound3 s.opportunity) ∧
    (∀ ks hc ms, ∀ s ∈ score_keywords_with_metrics ks hc ms,
      s.demand = pyRound3 s.demand ∧ s.competition = pyRound3 s.competition ∧
      s.opportunity = pyRound3 s.opportunity) ∧
    (∀ ks hc oms platform, ∀ s ∈ score_keywords_by_platform ks hc oms platform,
      s.demand = pyRound3 s.demand ∧ s.competition = pyRound3 s.competition ∧
      s.opportunity = pyRound3 s.opportunity) := by
  have hH : ∀ ks hc, ∀ s ∈ score_keywords ks hc,
      s.demand = pyRound3 s.demand ∧ s.competition = pyRound3 s.competition ∧
      s.opportunity = pyRound3 s.opportunity := by
    intro ks hc s hs
    obtain ⟨kw, _, rfl⟩ := mem_score_keywords.mp hs
    exact ⟨(pyRound3_idem _).symm, (pyRound3_idem _).symm, (pyRound3_idem _).symm⟩
  have hM : ∀ ks hc ms, ∀ s ∈ score_keywords_with_metrics ks hc ms,
      s.demand = pyRound3 s.demand ∧ s.competition = pyRound3 s.competition ∧
      s.opportunity = pyRound3 s.opportunity := by
    intro ks hc ms s hs
    obtain ⟨kw, _, rfl⟩ := mem_score_keywords_with_metrics.mp hs
    exact ⟨(pyRound3_idem _).symm, (pyRound3_idem _).symm, (pyRound3_idem _).symm⟩
  refine ⟨hH, hM, ?_⟩
  intro ks hc oms platform s hs
  cases oms with
  | none => exact hH ks hc s hs
  | some l =>
    cases l with
    | nil => exact hH ks hc s hs
    | cons x xs => exact hM ks hc (x :: xs) s hs

/-- C9 witness: the score of `"a"` under heuristic scoring has all three
continuous fields fixed by 3-decimal rounding. -/
theorem c9_score_fields_rounded_to_3_witness :
    (scoreOneHeuristic "a" 1).demand = pyRound3 ((scoreOneHeuristic "a" 1).demand) ∧
    (scoreOneHeuristic "a" 1).competition =
      pyRound3 ((scoreOneHeuristic "a" 1).competition) ∧
    (scoreOneHeuristic "a" 1).opportunity =
      pyRound3 ((scoreOneHeuristic "a" 1).opportunity) :=
  c9_score_fields_rounded_to_3.1 ["a"] none _
    (mem_score_keywords.mpr ⟨"a", by simp, rfl⟩)

/-- C10: a keyword missing from the hit-count map (or scored with no
map at all) is scored with a provider-hit count of `1`, and such a
keyword with 2 to 5 tokens gets heuristic demand `1.1`. -/
theorem c10_missing_hit_count_defaults_to_one :
    (∀ ks hc, ∀ s ∈ score_keywords ks hc,
      (hc.getD []).lookup s.keyword = none →
      s.provider_hits = 1 ∧
      (2 ≤ (tokenize s.keyword).length → (tokenize s.keyword).length ≤ 5 →
        s.demand = 1.1)) ∧
    (∀ ks hc ms, ∀ s ∈ score_keywords_with_metrics ks hc ms,
      (hc.getD []).lookup s.keyword = none → s.provider_hits = 1) := by
  constructor
  · intro ks hc s hs h
    obtain ⟨kw, _, rfl⟩ := mem_score_keywords.mp hs
    rw [scoreOneHeuristic_keyword] at h
    have hhit : hitsFor hc kw = 1 := by
      unfold hitsFor
      rw [h]
      rfl
    constructor
    · rw [scoreOneHeuristic_provider_hits, hhit]
    · intro h2 h5
      rw [scoreOneHeuristic_keyword] at h2 h5
      rw [scoreOneHeuristic_demand, hhit, estimate_demand_score_absent h2 h5]
      exact pyRound3_eq_of_cast 1100 (by norm_num)
  · intro ks hc ms s hs h
    obtain ⟨kw, _, rfl⟩ := mem_score_keywords_with_metrics.mp hs
    rw [scoreOneWithMetrics_keyword] at h
    rw [scoreOneWithMetrics_provider_hits]
    unfold hitsFor
    rw [h]
    rfl

/-- C10 witness: the two-token keyword `"a b"` scored without any
hit-count map gets provider hits `1` and demand `1.1`. -/
theorem c10_missing_hit_count_defaults_to_one_witness :
    (scoreOneHeuristic "a b" 1).provider_hits = 1 ∧
    (scoreOneHeuristic "a b" 1).demand = 1.1 := by
  have hs : scoreOneHeuristic "a b" 1 ∈ score_keywords ["a b"] none :=
    mem_score_keywords.mpr ⟨"a b", by simp, rfl⟩
  have h := c10_missing_hit_count_defaults_to_one.1 ["a b"] none _ hs rfl
  exact ⟨h.1, h.2 (by decide) (by decide)⟩

/-- C1 counterexample: at monthly volume 1000 with the default
parameters the code produces affiliate revenue 3375 and total 3862, not
the claimed 3000 and 3487 — the affiliate order count (2.25) is never
truncated before the revenue multiplication. -/
theorem c1_counterexample_affiliate_revenue_not_truncated :
    ¬((monetize_keywords ["k"]
        [("k", { keyword := "k", naver_monthly_pc := some 1000 })] none 0 none).map
        (fun r => (r.est_aff_rev, r.est_total_rev)) = [((3000 : ℤ), (3487 : ℤ))]) := by
  rw [monetize_single_row_eval]
  decide

/-- C1 amended: for monthly volume 1000 with capture 15%, 1.3
pageviews/visit, eCPM 2500, affiliate CVR 1.5% and commission 1500, the
monetization row has visits 150, pageviews 195, display revenue 487,
affiliate revenue 3375 (the 2.25 affiliate orders are kept fractional,
not truncated to 2) and total revenue 3862. -/
theorem c1_monetization_reference_row :
    (monetize_keywords ["k"]
        [("k", { keyword := "k", naver_monthly_pc := some 1000 })] none 0 none).map
      (fun r => (r.est_visits, r.est_pageviews, r.est_display_rev,
        r.est_aff_rev, r.est_total_rev)) =
      [((150 : ℤ), (195 : ℤ), (487 : ℤ), (3375 : ℤ), (3862 : ℤ))] := by
  rw [monetize_single_row_eval]
  decide

/-- C2 counterexample: for an indexed-content total of `0` the code
returns the hard-coded `0.8`, while the spec's clamp formula evaluates
to `0.7`. -/
theorem c2_counterexample_total_zero :
    comp_from_results 0 = 0.8 ∧ specCompClamp 0 = 0.7 ∧ (0.8 : ℝ) ≠ 0.7 := by
  refine ⟨by simp [comp_from_results], ?_, by norm_num⟩
  unfold specCompClamp
  rw [show ((0 : ℤ) : ℝ) + 1 = 1 by norm_num, Real.logb_one]
  rw [show (0.7 : ℝ) + 0 * 0.25 = 0.7 by norm_num]
  rw [min_eq_left (by norm_num), max_eq_right (by norm_num)]

/-- C2 amended: the per-source competition estimate agrees with the
spec's clamp formula for every total `≥ 1` (for totals `≤ 0`, hence in
particular `0`, the code returns `0.8` instead); the final competition
is the `[0.5, 2.5]`-clamped average of the available per-source
estimates, and the heuristic competition is retained when no
content-total signal is available. -/
theorem c2_competition_from_totals :
    (∀ total : ℤ, 1 ≤ total → comp_from_results total = specCompClamp total) ∧
    (∀ (kw : String) (hits : ℤ) (m : Option EnrichedMetrics),
      (compsOf m).isEmpty = false →
      (scoreOneWithMetrics kw hits m).competition =
        pyRound3 (max 0.5 (min ((compsOf m).sum / ((compsOf m).length : ℝ)) 2.5))) ∧
    (∀ (kw : String) (hits : ℤ) (m : Option EnrichedMetrics),
      (compsOf m).isEmpty = true →
      (scoreOneWithMetrics kw hits m).competition =
        pyRound3 (estimate_competition_score kw)) := by
  refine ⟨?_, ?_, ?_⟩
  · intro total ht
    unfold comp_from_results specCompClamp
    rw [if_neg (by omega), min_comm]
  · intro kw hits m h
    rw [scoreOneWithMetrics_competition, if_neg (by simp [h])]
  · intro kw hits m h
    rw [scoreOneWithMetrics_competition, if_pos h]

/-- C2 witness: total `7` matches the clamp formula; a metrics record
with one content total gets the clamped average; no record retains the
heuristic competition. -/
theorem c2_competition_from_totals_witness :
    comp_from_results 7 = specCompClamp 7 ∧
    (scoreOneWithMetrics "a" 1 (some { keyword := "a", naver_blog_total := some 3 })).competition =
      pyRound3 (max 0.5 (min
        ((compsOf (some { keyword := "a", naver_blog_total := some 3 })).sum /
          ((compsOf (some { keyword := "a", naver_blog_total := some 3 })).length : ℝ)) 2.5)) ∧
    (scoreOneWithMetrics "a" 1 none).competition =
      pyRound3 (estimate_competition_score "a") :=
  ⟨c2_competition_from_totals.1 7 (by norm_num),
   c2_competition_from_totals.2.1 "a" 1 _ rfl,
   c2_competition_from_totals.2.2 "a" 1 none rfl⟩

/-- C5 counterexample: the scoring functions do not deduplicate their
input, so a duplicated keyword yields two entries with the same
(already normalized) keyword string. -/
theorem c5_counterexample_duplicate_inputs_duplicate_entries :
    ((score_keywords ["a", "a"] none).map KeywordScore.keyword).count "a" = 2 ∧
    1 < ((score_keywords ["a", "a"] none).map KeywordScore.keyword).count "a" := by
  have hp := (score_keywords_keyword_perm ["a", "a"] none).count_eq "a"
  constructor
  · rw [hp]
    decide
  · rw [hp]
    decide

/-- C5 amended: scoring and monetization emit one entry per input list
element and never merge keywords themselves; each output collection has
at most one entry per keyword string provided the input list is already
duplicate-free (which the pipeline guarantees upstream via
`unique_ordered`). -/
theorem c5_unique_outputs_of_nodup_input (ks : List String)
    (hc : Option (List (String × ℤ))) (ms : List (String × EnrichedMetrics))
    (params : Option MonetizationParams) (mm : ℤ) (excl : Option (List String))
    (hnd : ks.Nodup) :
    ((score_keywords ks hc).map KeywordScore.keyword).Nodup ∧
    ((score_keywords_with_metrics ks hc ms).map KeywordScore.keyword).Nodup ∧
    ((monetize_keywords ks ms params mm excl).map MonetizationRow.keyword).Nodup := by
  refine ⟨((score_keywords_keyword_perm ks hc).nodup_iff).mpr hnd,
    ((score_keywords_with_metrics_keyword_perm ks hc ms).nodup_iff).mpr hnd, ?_⟩
  obtain ⟨l, hperm, hsub⟩ := monetize_keywords_keyword_sublist ks ms params mm excl
  exact hperm.nodup_iff.mpr (hnd.sublist hsub)

/-- C5 witness: a duplicate-free one-keyword input yields duplicate-free
keyword columns in all three outputs. -/
theorem c5_unique_outputs_of_nodup_input_witness :
    (["a"] : List String).Nodup ∧
    ((score_keywords ["a"] none).map KeywordScore.keyword).Nodup ∧
    ((score_keywords_with_metrics ["a"] none []).map KeywordScore.keyword).Nodup ∧
    ((monetize_keywords ["a"] [] none 0 none).map MonetizationRow.keyword).Nodup := by
  have h := c5_unique_outputs_of_nodup_input ["a"] none [] none 0 none (by decide)
  exact ⟨by decide, h.1, h.2.1, h.2.2⟩

/-- C6 witness: a one-record metrics map selects metrics-informed
scoring. -/
theorem c6_by_platform_mode_selection_witness :
    score_keywords_by_platform ["a"] none (some [("a", { keyword := "a" })]) "naver" =
      score_keywords_with_metrics ["a"] none [("a", { keyword := "a" })] :=
  (c6_by_platform_mode_selection ["a"] none "naver").1
    [("a", { keyword := "a" })] (by simp)

end BlogKW
